import Mathlib

/-!
Verification of the streaming RAG frontend, `src/frontend/src/App.jsx`.

The file embeds the two stateful handlers of the React component:

* `handleQuery` (App.jsx lines 47-96): POSTs the query, then reads the
  response body piece by piece (`reader.read()`), decodes each piece,
  splits it on newlines, drops blank lines, `JSON.parse`s every remaining
  line and dispatches on the record's `type` field, updating the
  `answer` / `citations` / `error` React states.  A thrown exception
  (`JSON.parse` failure, property access on `null`) escapes the loop and is
  caught by the surrounding `catch`, which stores the exception message in
  the `error` state; the loop never resumes.
* `handleIngest` (App.jsx lines 14-45): POSTs the file, and on a non-ok
  response throws `new Error(errData.error || <default>)`, caught by the
  same pattern; on an ok response it alerts `data.message` and clears the
  selected file.

JavaScript runtime primitives used by that code (`JSON.parse`, property
access, `===` against a string literal, string coercion by `+`, truthiness
for `||`) are modelled explicitly below; each model carries a comment
naming the JS behaviour it reflects.  Byte pieces are modelled as lists of
characters (the code decodes each delivered piece with `TextDecoder`
before splitting, so the loop body itself works on text).
-/

namespace RAGApp

/-- A parsed JavaScript JSON value: the possible results of `JSON.parse`.
Numbers are modelled as integers (the wire format of the app uses only
strings, integer ids, arrays and objects). -/
inductive Json where
  | null
  | bool (b : Bool)
  | num (n : Int)
  | str (s : String)
  | arr (elems : List Json)
  | obj (members : List (String × Json))

/-! ### Model of `JSON.parse`

A recursive-descent parser over `List Char`, total by a fuel argument.
`none` models the `SyntaxError` throw of `JSON.parse`. -/

/-- JSON insignificant whitespace (RFC 8259: space, tab, LF, CR). -/
def jsonWs (c : Char) : Bool := [' ', '\t', '\n', '\r'].contains c

/-- Drop leading JSON whitespace. -/
def dropWs (cs : List Char) : List Char := cs.dropWhile jsonWs

/-- Value of one hex digit of a `\uXXXX` escape, by code point range. -/
def hexDigit (c : Char) : Option Nat :=
  let n := c.toNat
  if 48 ≤ n ∧ n ≤ 57 then some (n - 48)
  else if 97 ≤ n ∧ n ≤ 102 then some (n - 87)
  else if 65 ≤ n ∧ n ≤ 70 then some (n - 55)
  else none

/-- Code point named by the four hex digits of a `\uXXXX` escape. -/
def hexQuad (a b c d : Char) : Option Nat :=
  match hexDigit a, hexDigit b, hexDigit c, hexDigit d with
  | some w, some x, some y, some z => some (4096 * w + 256 * x + 16 * y + z)
  | _, _, _, _ => none

/-- The character named by a one-letter escape `\c`. -/
def escapeChar (c : Char) : Option Char :=
  if c = 'n' then some '\n'
  else if c = 't' then some '\t'
  else if c = 'r' then some '\r'
  else if c = '"' then some '"'
  else if c = '\\' then some '\\'
  else if c = '/' then some '/'
  else if c = 'b' then some (Char.ofNat 8)
  else if c = 'f' then some (Char.ofNat 12)
  else none

/-- Body of a JSON string after the opening quote.  Structural on the input;
rejects unescaped control characters and bad escapes, as `JSON.parse` does. -/
def scanString (acc : List Char) : List Char → Option (String × List Char)
  | [] => none
  | '"' :: rest => some (String.mk acc.reverse, rest)
  | '\\' :: esc =>
      (match esc with
       | 'u' :: a :: b :: c :: d :: rest =>
           (match hexQuad a b c d with
            | some n => scanString (Char.ofNat n :: acc) rest
            | none => none)
       | e :: rest =>
           (match escapeChar e with
            | some ch => scanString (ch :: acc) rest
            | none => none)
       | [] => none)
  | c :: rest => if 32 ≤ c.toNat then scanString (c :: acc) rest else none

/-- Maximal run of decimal digits at the front of the input, and the rest. -/
def scanDigits (cs : List Char) : List Char × List Char :=
  (cs.takeWhile Char.isDigit, cs.dropWhile Char.isDigit)

/-- Numeric value of a digit run. -/
def digitsVal (ds : List Char) : Nat :=
  ds.foldl (fun acc c => 10 * acc + (c.toNat - 48)) 0

/-- A JSON integer: optional minus, digits, no redundant leading zero. -/
def scanNumber (cs : List Char) : Option (Json × List Char) :=
  let (neg, cs1) := match cs with
    | '-' :: r => (true, r)
    | _ => (false, cs)
  match scanDigits cs1 with
  | ([], _) => none
  | (ds, rest) =>
      if ds.length > 1 ∧ ds.headD '0' = '0' then none
      else
        let n : Int := (digitsVal ds : Nat)
        some (Json.num (if neg then -n else n), rest)

mutual

/-- One JSON value (after optional leading whitespace), with the unconsumed
remainder.  Fuel only bounds the recursion depth. -/
def scanValue : Nat → List Char → Option (Json × List Char)
  | 0, _ => none
  | fuel + 1, cs =>
      match dropWs cs with
      | [] => none
      | '"' :: rest =>
          (match scanString [] rest with
           | some (s, r) => some (Json.str s, r)
           | none => none)
      | '{' :: rest =>
          (match dropWs rest with
           | '}' :: r => some (Json.obj [], r)
           | r => scanMembers fuel [] r)
      | '[' :: rest =>
          (match dropWs rest with
           | ']' :: r => some (Json.arr [], r)
           | r => scanElements fuel [] r)
      | 't' :: 'r' :: 'u' :: 'e' :: rest => some (Json.bool true, rest)
      | 'f' :: 'a' :: 'l' :: 's' :: 'e' :: rest => some (Json.bool false, rest)
      | 'n' :: 'u' :: 'l' :: 'l' :: rest => some (Json.null, rest)
      | other => scanNumber other

/-- The members of an object, positioned at a key (first or after a comma). -/
def scanMembers : Nat → List (String × Json) → List Char → Option (Json × List Char)
  | 0, _, _ => none
  | fuel + 1, acc, cs =>
      match dropWs cs with
      | '"' :: rest =>
          (match scanString [] rest with
           | none => none
           | some (k, r1) =>
               match dropWs r1 with
               | ':' :: r2 =>
                   (match scanValue fuel r2 with
                    | none => none
                    | some (v, r3) =>
                        match dropWs r3 with
                        | ',' :: r4 => scanMembers fuel (acc ++ [(k, v)]) r4
                        | '}' :: r4 => some (Json.obj (acc ++ [(k, v)]), r4)
                        | _ => none)
               | _ => none)
      | _ => none

/-- The elements of an array, positioned at an element. -/
def scanElements : Nat → List Json → List Char → Option (Json × List Char)
  | 0, _, _ => none
  | fuel + 1, acc, cs =>
      match scanValue fuel cs with
      | none => none
      | some (v, r1) =>
          match dropWs r1 with
          | ',' :: r2 => scanElements fuel (acc ++ [v]) r2
          | ']' :: r2 => some (Json.arr (acc ++ [v]), r2)
          | _ => none

end

/-- Model of `JSON.parse` applied to one line: a single value with nothing but
whitespace around it; `none` models the thrown `SyntaxError`. -/
def jsonParse (line : List Char) : Option Json :=
  match scanValue (2 * line.length + 4) line with
  | some (v, rest) => if (dropWs rest).isEmpty then some v else none
  | none => none

/-! ### Models of the JavaScript runtime operations the component uses -/

/-- Last binding of key `k` in an object's member list: `JSON.parse` keeps the
last of duplicate keys, and that is also what property access sees.
`none` models the property being absent, i.e. `undefined`. -/
def lookupField : List (String × Json) → String → Option Json
  | [], _ => none
  | (k', v) :: rest, k =>
      match lookupField rest k with
      | some r => some r
      | none => if k' = k then some v else none

/-- Property access `v.k`.  On `null` it throws a `TypeError` (modelled as
`Except.error` with the exception's message); on an object it reads the
member (absent means `undefined`); on any other value it yields `undefined`. -/
def jsField (v : Json) (k : String) : Except String (Option Json) :=
  match v with
  | Json.null =>
      Except.error ("Cannot read properties of null (reading " ++ k ++ ")")
  | Json.obj members => Except.ok (lookupField members k)
  | _ => Except.ok none

/-- Strict equality `v === s` of a possibly-undefined value against a string
literal: true exactly when `v` is that string. -/
def jsStrictEqStr (v : Option Json) (s : String) : Bool :=
  match v with
  | some (Json.str t) => t == s
  | _ => false

mutual

/-- String coercion `String(v)` of a defined value, as performed by
JavaScript's `+` on a string and by `new Error(v)`. -/
def jsValToString : Json → String
  | Json.null => "null"
  | Json.bool b => if b then "true" else "false"
  | Json.num n => toString n
  | Json.str s => s
  | Json.arr elems => String.intercalate "," (jsArrParts elems)
  | Json.obj _ => "[object Object]"

/-- The pieces joined by `Array.prototype.toString` (elements coerced, with
`null` rendered as the empty string). -/
def jsArrParts : List Json → List String
  | [] => []
  | Json.null :: rest => "" :: jsArrParts rest
  | v :: rest => jsValToString v :: jsArrParts rest

end

/-- String coercion of a possibly-undefined value (`String(undefined)` is
`"undefined"`). -/
def jsToString : Option Json → String
  | none => "undefined"
  | some v => jsValToString v

/-- JavaScript truthiness of a possibly-undefined value, as tested by `||`:
`undefined`, `null`, `false`, `0` and `""` are falsy; everything else
(including any object or array) is truthy. -/
def jsTruthy : Option Json → Bool
  | none => false
  | some Json.null => false
  | some (Json.bool b) => b
  | some (Json.num n) => n != 0
  | some (Json.str s) => s != ""
  | some (Json.arr _) => true
  | some (Json.obj _) => true

/-! ### The `handleQuery` stream loop (App.jsx lines 47-96)

React state updates are modelled as sequential updates of a record: the
`answer` update is functional (`prev => prev + data`), `citations` and
`error` are overwrites, so the rendered end state is the sequential fold.
`citations` holds the raw value passed to `setCitations` (an `Option Json`,
since `parsed.data` may be `undefined`); `answer` and `error` hold strings,
as every value the code stores in them is coerced on use. -/

structure QueryState where
  answer : String
  citations : Option Json
  error : String

/-- The state after the resets at the top of `handleQuery`:
`setError('')`, `setAnswer('')`, `setCitations([])`. -/
def resetState : QueryState :=
  { answer := "", citations := some (Json.arr []), error := "" }

/-- Dispatch on one parsed record (App.jsx lines 77-87): `parsed.type`
compared with `'chunk'`, `'citations'`, `'error'`; the matching branch
stores `parsed.data`.  `Except.error` models an exception escaping the
loop (property access on `null`). -/
def applyRecord (st : QueryState) (parsed : Json) : Except String QueryState :=
  match jsField parsed "type" with
  | Except.error msg => Except.error msg
  | Except.ok ty =>
      if jsStrictEqStr ty "chunk" then
        match jsField parsed "data" with
        | Except.error msg => Except.error msg
        | Except.ok d => Except.ok { st with answer := st.answer ++ jsToString d }
      else if jsStrictEqStr ty "citations" then
        match jsField parsed "data" with
        | Except.error msg => Except.error msg
        | Except.ok d => Except.ok { st with citations := d }
      else if jsStrictEqStr ty "error" then
        match jsField parsed "data" with
        | Except.error msg => Except.error msg
        | Except.ok d => Except.ok { st with error := jsToString d }
      else Except.ok st

/-- The message of the exception thrown by `JSON.parse` on bad input.
The exact text is engine-specific; only its identity as a nonempty string
matters to the component, which stores it via `err.message`. -/
def parseFailureMessage : String := "Unexpected token in JSON"

/-- The inner `for (const line of lines)` loop over the parsed lines of one
delivered piece: parse each line, dispatch, thread the state.  A thrown
exception (`Except.error`) carries the state reached so far together with
the exception message. -/
def processLines (st : QueryState) : List (List Char) → Except (QueryState × String) QueryState
  | [] => Except.ok st
  | line :: rest =>
      match jsonParse line with
      | none => Except.error (st, parseFailureMessage)
      | some parsed =>
          match applyRecord st parsed with
          | Except.error msg => Except.error (st, msg)
          | Except.ok st' => processLines st' rest

/-- Split a piece at `'\n'`, exactly as `chunk.split('\n')`: `n` newlines
give `n + 1` (possibly empty) segments. -/
def splitNewlines : List Char → List (List Char)
  | [] => [[]]
  | c :: cs =>
      if c = '\n' then [] :: splitNewlines cs
      else
        match splitNewlines cs with
        | [] => [[c]]
        | seg :: segs => (c :: seg) :: segs

/-- A line that `line.trim() !== ''` rejects: entirely whitespace. -/
def blankLine (line : List Char) : Bool := line.all Char.isWhitespace

/-- The body of one `while` iteration (App.jsx lines 73-88): split the decoded
piece on newlines, keep the non-blank lines, process them in order. -/
def processPiece (st : QueryState) (piece : List Char) : Except (QueryState × String) QueryState :=
  processLines st ((splitNewlines piece).filter (fun line => !blankLine line))

/-- The `while (true)` read loop over the delivered pieces, together with the
`catch` that stores a thrown exception's message in the `error` state and
abandons the rest of the stream. -/
def runLoop (st : QueryState) : List (List Char) → QueryState
  | [] => st
  | piece :: rest =>
      match processPiece st piece with
      | Except.ok st' => runLoop st' rest
      | Except.error (st', msg) => { st' with error := msg }

/-- `handleQuery` on an ok response whose body is delivered as `pieces`,
starting from the component state `prev` left by earlier interactions:
`setError('')`, `setAnswer('')` and `setCitations([])` overwrite all three
states before the first `reader.read()`, then the read loop runs. -/
def handleQuery (prev : QueryState) (pieces : List (List Char)) : QueryState :=
  runLoop { prev with answer := "", citations := some (Json.arr []), error := "" } pieces

/-- Rendering of one citation (App.jsx lines 134-139): `[{citation.id}]` in
the strong element and `{citation.source_text}` in the paragraph.  React
renders a missing property (`undefined`) or `null` as nothing, a number or
string as its text. -/
def reactText : Option Json → String
  | none => ""
  | some Json.null => ""
  | some (Json.bool _) => ""
  | some (Json.num n) => toString n
  | some (Json.str s) => s
  | some v => jsValToString v

/-- The two text fragments of a rendered citation entry. -/
def renderCitation (c : Json) : String × String :=
  ("[" ++ reactText (lookupField (match c with | Json.obj ms => ms | _ => []) "id") ++ "]",
   reactText (lookupField (match c with | Json.obj ms => ms | _ => []) "source_text"))

/-! ### Record-aligned delivery: encoding and the spec-side reference

The spec's ordering guarantee ("events are totally ordered as produced; no
event may be skipped or duplicated") is stated against processing the whole
record sequence in order.  `encodePiece` builds one delivered piece out of
whole newline-terminated records; `streamRun` / `streamApplied` process the
full record sequence of the stream in order, which is the reference the
piece-wise loop is compared against. -/

/-- One delivered piece consisting of whole records, each terminated by the
newline delimiter. -/
def encodePiece (records : List (List Char)) : List Char :=
  (records.map (fun r => r ++ ['\n'])).flatten

/-- Reference semantics, following the spec's words: the whole stream's
records decoded and applied one after the other, in stream order, the
catch handler applied if a record throws. -/
def streamRun (st : QueryState) (records : List (List Char)) : QueryState :=
  match processLines st records with
  | Except.ok st' => st'
  | Except.error (st', msg) => { st' with error := msg }

/-- The records of the stream that the reference semantics decodes and
applies, in order (all of them up to the first throwing record, if any). -/
def streamApplied (st : QueryState) : List (List Char) → List (List Char)
  | [] => []
  | line :: rest =>
      match jsonParse line with
      | none => []
      | some parsed =>
          match applyRecord st parsed with
          | Except.ok st' => line :: streamApplied st' rest
          | Except.error _ => []

/-- The lines the piece-wise read loop actually parses and applies, in the
order it applies them. -/
def loopApplied (st : QueryState) : List (List Char) → List (List Char)
  | [] => []
  | piece :: rest =>
      let lines := (splitNewlines piece).filter (fun line => !blankLine line)
      streamApplied st lines ++
        match processLines st lines with
        | Except.ok st' => loopApplied st' rest
        | Except.error _ => []

/-! ### The `handleIngest` handler (App.jsx lines 14-45) -/

/-- What the user observes after `handleIngest` resolves: the `error` state,
the message passed to `alert` (if any), and whether the selected file was
cleared. -/
structure IngestView where
  error : String
  alerted : Option String
  fileCleared : Bool

/-- The fallback text of `throw new Error(errData.error || '...')`. -/
def ingestDefaultError : String := "Ingestion failed. Is the backend running?"

/-- `handleIngest` after the fetch resolved with status `ok` and a JSON body:
non-ok throws `new Error(errData.error || <default>)` (caught, stored in
`error`); ok alerts `data.message` and clears the file.  `||` takes the
left operand when truthy, and `new Error(v).message` is the string
coercion of `v` (empty when `v` is `undefined`). -/
def handleIngest (ok : Bool) (body : Json) : IngestView :=
  if ok then
    match jsField body "message" with
    | Except.error msg => { error := msg, alerted := none, fileCleared := false }
    | Except.ok m => { error := "", alerted := some (jsToString m), fileCleared := true }
  else
    match jsField body "error" with
    | Except.error msg => { error := msg, alerted := none, fileCleared := false }
    | Except.ok e =>
        let message := if jsTruthy e then jsToString e else ingestDefaultError
        { error := message, alerted := none, fileCleared := false }

/-! ### Concrete inputs used to exercise the model -/

/-- A component state as an earlier query could have left it. -/
def staleState : QueryState :=
  { answer := "old answer", citations := some (Json.arr [Json.str "old"]), error := "old error" }

/-- The first piece of the split delivery from the spec's decoder example. -/
def splitPieceA : List Char := ("\x7b\"type\":\"ch").toList

/-- The second piece of that delivery. -/
def splitPieceB : List Char := ("unk\",\"data\":\"hi\"\x7d\n").toList

/-- The wire record `{"type":"chunk","data":"hi"}`. -/
def chunkHiRecord : List Char := ("\x7b\"type\":\"chunk\",\"data\":\"hi\"\x7d").toList

/-- The wire record `{"type":"error","data":"boom"}`. -/
def errorBoomRecord : List Char := ("\x7b\"type\":\"error\",\"data\":\"boom\"\x7d").toList

/-- The wire record `{"type":"chunk","data":"after"}`. -/
def chunkAfterRecord : List Char := ("\x7b\"type\":\"chunk\",\"data\":\"after\"\x7d").toList

/-- The wire record `{"type":"citations","data":[{"id":1,"source_text":"s"}]}`. -/
def citationsRecord : List Char :=
  ("\x7b\"type\":\"citations\",\"data\":[\x7b\"id\":1,\"source_text\":\"s\"\x7d]\x7d").toList

/-! ### Helper lemmas: splitting a record-aligned piece recovers its records -/

theorem splitNewlines_ne_nil (cs : List Char) : splitNewlines cs ≠ [] := by
  induction cs with
  | nil => simp [splitNewlines]
  | cons c cs ih =>
      simp only [splitNewlines]
      split
      · simp
      · cases h : splitNewlines cs with
        | nil => simp
        | cons seg segs => simp

theorem splitNewlines_terminated (r t : List Char) (h : '\n' ∉ r) :
    splitNewlines (r ++ '\n' :: t) = r :: splitNewlines t := by
  induction r with
  | nil => simp [splitNewlines]
  | cons c r ih =>
      have hc : ¬(c = '\n') := fun e => h (e ▸ List.mem_cons_self c r)
      have hr : '\n' ∉ r := fun hm => h (List.mem_cons_of_mem _ hm)
      show splitNewlines (c :: (r ++ '\n' :: t)) = (c :: r) :: splitNewlines t
      simp only [splitNewlines, if_neg hc]
      rw [ih hr]

theorem splitNewlines_encodePiece (records : List (List Char))
    (h : ∀ r ∈ records, '\n' ∉ r) :
    splitNewlines (encodePiece records) = records ++ [[]] := by
  induction records with
  | nil => simp [encodePiece, splitNewlines]
  | cons r rs ih =>
      have hr : '\n' ∉ r := h r (List.mem_cons_self r rs)
      have hrs : ∀ x ∈ rs, '\n' ∉ x := fun x hx => h x (List.mem_cons_of_mem _ hx)
      have he : encodePiece (r :: rs) = r ++ '\n' :: encodePiece rs := by
        simp [encodePiece]
      rw [he, splitNewlines_terminated r _ hr, ih hrs, List.cons_append]

theorem filter_blank_encodePiece (records : List (List Char))
    (h : ∀ r ∈ records, blankLine r = false) :
    (records ++ [[]]).filter (fun line => !blankLine line) = records := by
  rw [List.filter_append]
  have h2 : List.filter (fun line => !blankLine line) [[]] = [] := by
    simp [blankLine]
  rw [h2, List.append_nil]
  exact List.filter_eq_self.mpr (fun a ha => by simp [h a ha])

theorem processLines_append (xs ys : List (List Char)) (st : QueryState) :
    processLines st (xs ++ ys) =
      match processLines st xs with
      | Except.ok st' => processLines st' ys
      | Except.error e => Except.error e := by
  induction xs generalizing st with
  | nil => simp [processLines]
  | cons line rest ih =>
      simp only [List.cons_append, processLines]
      cases hp : jsonParse line with
      | none => simp
      | some parsed =>
          cases ha : applyRecord st parsed with
          | error msg => simp [ha]
          | ok st' => simpa [ha] using ih st'

theorem streamApplied_append (xs ys : List (List Char)) (st : QueryState) :
    streamApplied st (xs ++ ys) =
      streamApplied st xs ++
        match processLines st xs with
        | Except.ok st' => streamApplied st' ys
        | Except.error _ => [] := by
  induction xs generalizing st with
  | nil => simp [streamApplied, processLines]
  | cons line rest ih =>
      simp only [List.cons_append, streamApplied, processLines]
      cases hp : jsonParse line with
      | none => simp
      | some parsed =>
          cases ha : applyRecord st parsed with
          | error msg => simp [ha]
          | ok st' => simpa [ha] using ih st'

theorem streamRun_append (xs ys : List (List Char)) (st : QueryState) :
    streamRun st (xs ++ ys) =
      match processLines st xs with
      | Except.ok st' => streamRun st' ys
      | Except.error e => { e.1 with error := e.2 } := by
  cases hres : processLines st xs with
  | error e => simp [streamRun, processLines_append, hres]
  | ok st' => simp [streamRun, processLines_append, hres]

/-- Processing a record-aligned stream piece-wise agrees, state and applied
records alike, with processing the whole record sequence in order. -/
theorem runLoop_aligned (groups : List (List (List Char))) (st : QueryState)
    (h : ∀ r ∈ groups.flatten, '\n' ∉ r ∧ blankLine r = false) :
    runLoop st (groups.map encodePiece) = streamRun st groups.flatten ∧
    loopApplied st (groups.map encodePiece) = streamApplied st groups.flatten := by
  induction groups generalizing st with
  | nil => simp [runLoop, streamRun, processLines, loopApplied, streamApplied]
  | cons g gs ih =>
      have hg : ∀ r ∈ g, '\n' ∉ r ∧ blankLine r = false := fun r hr =>
        h r (by simp only [List.flatten_cons]; exact List.mem_append_left _ hr)
      have hgs : ∀ r ∈ gs.flatten, '\n' ∉ r ∧ blankLine r = false := fun r hr =>
        h r (by simp only [List.flatten_cons]; exact List.mem_append_right _ hr)
      have hlines : (splitNewlines (encodePiece g)).filter (fun line => !blankLine line) = g := by
        rw [splitNewlines_encodePiece g (fun r hr => (hg r hr).1)]
        exact filter_blank_encodePiece g (fun r hr => (hg r hr).2)
      have hpp : processPiece st (encodePiece g) = processLines st g := by
        rw [processPiece, hlines]
      cases hres : processLines st g with
      | error e =>
          obtain ⟨est, emsg⟩ := e
          constructor
          · have h1 : runLoop st (encodePiece g :: gs.map encodePiece) =
                { est with error := emsg } := by
              simp only [runLoop, hpp, hres]
            have h2 : streamRun st ((g :: gs).flatten) = { est with error := emsg } := by
              rw [List.flatten_cons, streamRun_append g gs.flatten st, hres]
            rw [List.map_cons, h1, h2]
          · have h1 : loopApplied st (encodePiece g :: gs.map encodePiece) =
                streamApplied st g := by
              simp only [loopApplied, hlines, hres]
              simp
            have h2 : streamApplied st ((g :: gs).flatten) = streamApplied st g := by
              rw [List.flatten_cons, streamApplied_append g gs.flatten st, hres]
              simp
            rw [List.map_cons, h1, h2]
      | ok st' =>
          constructor
          · have h1 : runLoop st (encodePiece g :: gs.map encodePiece) =
                runLoop st' (gs.map encodePiece) := by
              simp only [runLoop, hpp, hres]
            have h2 : streamRun st ((g :: gs).flatten) = streamRun st' gs.flatten := by
              rw [List.flatten_cons, streamRun_append g gs.flatten st, hres]
            rw [List.map_cons, h1, h2]
            exact (ih st' hgs).1
          · have h1 : loopApplied st (encodePiece g :: gs.map encodePiece) =
                streamApplied st g ++ loopApplied st' (gs.map encodePiece) := by
              simp only [loopApplied, hlines, hres]
            have h2 : streamApplied st ((g :: gs).flatten) =
                streamApplied st g ++ streamApplied st' gs.flatten := by
              rw [List.flatten_cons, streamApplied_append g gs.flatten st, hres]
            rw [List.map_cons, h1, h2, (ih st' hgs).2]

/-! ### The claims -/

/-- C1.  The spec requires the stream decoder to buffer a delivered piece that
ends mid-record and reconstruct the record from the remainder; in particular
the two-piece delivery of one chunk record must yield exactly one chunk event
with data "hi".  The code instead hands the partial first line straight to
`JSON.parse`, which throws; the catch stores the parse failure in the error
state and the loop never reads the second piece, so no chunk event is
produced — even though the two pieces together are exactly one well-formed
chunk record. -/
theorem split_delivery_not_reassembled :
    handleQuery staleState [splitPieceA, splitPieceB] =
      { answer := "", citations := some (Json.arr []), error := parseFailureMessage } ∧
    (handleQuery staleState [splitPieceA, splitPieceB]).answer ≠ "hi" ∧
    jsonParse (splitPieceA ++ splitPieceB) =
      some (Json.obj [("type", Json.str "chunk"), ("data", Json.str "hi")]) := by
  refine ⟨rfl, ?_, rfl⟩
  decide

/-- C2.  The spec requires an error event to abort the loop reading the
stream, with no later record read or applied.  The code's error branch only
sets the error state and continues: delivered an error record followed by a
chunk record, the loop applies both — the final answer is the post-error
chunk's data and the applied-record trace lists the chunk record after the
error record. -/
theorem error_event_does_not_abort_loop :
    handleQuery staleState [encodePiece [errorBoomRecord, chunkAfterRecord]] =
      { answer := "after", citations := some (Json.arr []), error := "boom" } ∧
    loopApplied resetState [encodePiece [errorBoomRecord, chunkAfterRecord]] =
      [errorBoomRecord, chunkAfterRecord] :=
  ⟨rfl, rfl⟩

/-- C3.  For a record-aligned delivery (every piece a whole number of
newline-terminated records), the loop reaches the same final state as
processing the stream's records one by one in stream order, and the sequence
of records it applies is exactly that of the in-order reference — none
skipped, none duplicated, none reordered. -/
theorem aligned_delivery_processes_in_order (prev : QueryState)
    (groups : List (List (List Char)))
    (h : ∀ r ∈ groups.flatten, '\n' ∉ r ∧ blankLine r = false) :
    handleQuery prev (groups.map encodePiece) = streamRun resetState groups.flatten ∧
    loopApplied resetState (groups.map encodePiece) = streamApplied resetState groups.flatten :=
  runLoop_aligned groups resetState h

theorem aligned_delivery_processes_in_order_witness :
    (∀ r ∈ [[chunkHiRecord], [citationsRecord]].flatten, '\n' ∉ r ∧ blankLine r = false) ∧
    (handleQuery staleState ([[chunkHiRecord], [citationsRecord]].map encodePiece) =
      streamRun resetState [chunkHiRecord, citationsRecord] ∧
    loopApplied resetState ([[chunkHiRecord], [citationsRecord]].map encodePiece) =
      streamApplied resetState [chunkHiRecord, citationsRecord]) :=
  ⟨by decide,
   aligned_delivery_processes_in_order staleState [[chunkHiRecord], [citationsRecord]] (by decide)⟩

/-- C4.  Applying a chunk event whose data is the string `d` turns the answer
into the previous answer with `d` appended at the end, and touches nothing
else, so chunk payloads accumulate in receive order. -/
theorem chunk_event_appends_data (st : QueryState) (parsed : Json) (d : String)
    (hty : jsField parsed "type" = Except.ok (some (Json.str "chunk")))
    (hd : jsField parsed "data" = Except.ok (some (Json.str d))) :
    applyRecord st parsed =
      Except.ok { answer := st.answer ++ d, citations := st.citations, error := st.error } := by
  simp [applyRecord, hty, hd, jsStrictEqStr, jsToString, jsValToString]

theorem chunk_event_appends_data_witness :
    applyRecord staleState (Json.obj [("type", Json.str "chunk"), ("data", Json.str "hi")]) =
      Except.ok { answer := staleState.answer ++ "hi", citations := staleState.citations,
                  error := staleState.error } :=
  chunk_event_appends_data staleState _ "hi" rfl rfl

/-- C5.  Applying a citations event replaces the citations state with exactly
the event's data array, whatever citations were held before: the new state
does not depend on the old citations value at all. -/
theorem citations_event_replaces_state (st : QueryState) (parsed : Json) (elems : List Json)
    (hty : jsField parsed "type" = Except.ok (some (Json.str "citations")))
    (hd : jsField parsed "data" = Except.ok (some (Json.arr elems))) :
    applyRecord st parsed =
      Except.ok { answer := st.answer, citations := some (Json.arr elems),
                  error := st.error } := by
  simp [applyRecord, hty, hd, jsStrictEqStr]

theorem citations_event_replaces_state_witness :
    applyRecord staleState
        (Json.obj [("type", Json.str "citations"), ("data", Json.arr [Json.num 1])]) =
      Except.ok { answer := staleState.answer, citations := some (Json.arr [Json.num 1]),
                  error := staleState.error } :=
  citations_event_replaces_state staleState _ [Json.num 1] rfl rfl

/-- C6.  Each newline-delimited line is handed to `JSON.parse` on its own (a
failed line throws, a parsed one is dispatched before the next line is
touched); dispatch looks only at the record's type field being the string
chunk, citations or error — chunk and error store their data coerced to a
string, citations stores its data array as-is — and a citation entry renders
as its bracketed id followed by its source text. -/
theorem line_framing_and_dispatch (st : QueryState) (members : List (String × Json))
    (i : Int) (s : String) :
    (∀ line rest, processLines st (line :: rest) =
        match jsonParse line with
        | none => Except.error (st, parseFailureMessage)
        | some parsed =>
            match applyRecord st parsed with
            | Except.error msg => Except.error (st, msg)
            | Except.ok st' => processLines st' rest) ∧
    applyRecord st (Json.obj members) =
      Except.ok
        (if jsStrictEqStr (lookupField members "type") "chunk" then
          { st with answer := st.answer ++ jsToString (lookupField members "data") }
         else if jsStrictEqStr (lookupField members "type") "citations" then
          { st with citations := lookupField members "data" }
         else if jsStrictEqStr (lookupField members "type") "error" then
          { st with error := jsToString (lookupField members "data") }
         else st) ∧
    renderCitation (Json.obj [("id", Json.num i), ("source_text", Json.str s)]) =
      ("[" ++ toString i ++ "]", s) := by
  refine ⟨fun line rest => rfl, ?_, rfl⟩
  simp only [applyRecord, jsField]
  split_ifs <;> rfl

/-- C7 counterexample.  A failure response whose body carries `error` present
but equal to the empty string does not surface that field: the code's
`errData.error || <default>` takes the default because the empty string is
falsy, so the error state is not the body's error field value. -/
theorem ingest_empty_error_field_uses_default :
    (handleIngest false (Json.obj [("error", Json.str "")])).error ≠ "" ∧
    (handleIngest false (Json.obj [("error", Json.str "")])).error = ingestDefaultError := by
  refine ⟨?_, rfl⟩
  decide

/-- C7 (amended).  On a failure response with a JSON object body, the error
state becomes the body's error field when that field is a nonempty string,
and the fixed default message when the field is absent or the empty string
(more generally, whenever it is falsy); on a success response the body's
message field is what is alerted to the user, the file selection is cleared
and no error is shown. -/
theorem ingest_failure_and_success_messages (members : List (String × Json)) (s m : String) :
    ((lookupField members "error" = some (Json.str s) ∧ s ≠ "") →
        (handleIngest false (Json.obj members)).error = s) ∧
    ((lookupField members "error" = none ∨ lookupField members "error" = some (Json.str "")) →
        (handleIngest false (Json.obj members)).error = ingestDefaultError) ∧
    (lookupField members "message" = some (Json.str m) →
        handleIngest true (Json.obj members) =
          { error := "", alerted := some m, fileCleared := true }) := by
  refine ⟨?_, ?_, ?_⟩
  · rintro ⟨he, hs⟩
    simp [handleIngest, jsField, he, jsTruthy, hs, jsToString, jsValToString]
  · rintro (he | he) <;> simp [handleIngest, jsField, he, jsTruthy]
  · intro hm
    simp [handleIngest, jsField, hm, jsToString, jsValToString]

theorem ingest_failure_and_success_messages_witness :
    (handleIngest false (Json.obj [("error", Json.str "disk full")])).error = "disk full" ∧
    handleIngest true (Json.obj [("message", Json.str "File ingested")]) =
      { error := "", alerted := some "File ingested", fileCleared := true } :=
  ⟨(ingest_failure_and_success_messages [("error", Json.str "disk full")] "disk full" "x").1
      ⟨rfl, by decide⟩,
   (ingest_failure_and_success_messages [("message", Json.str "File ingested")] "x"
      "File ingested").2.2 rfl⟩

/-- C8.  Every invocation of `handleQuery` overwrites the error, answer and
citations states with their empty values before the first read, so its whole
behaviour is independent of whatever state an earlier query left behind. -/
theorem query_resets_state_first (prev : QueryState) (pieces : List (List Char)) :
    handleQuery prev pieces = runLoop resetState pieces ∧
    ∀ other, handleQuery prev pieces = handleQuery other pieces :=
  ⟨rfl, fun _ => rfl⟩

/-- C9.  Applying an error event whose data is the string `d` sets only the
error state to `d`; the accumulated answer and the citations already held are
returned unchanged — the partial answer is retained, not discarded. -/
theorem error_event_keeps_partial_answer (st : QueryState) (parsed : Json) (d : String)
    (hty : jsField parsed "type" = Except.ok (some (Json.str "error")))
    (hd : jsField parsed "data" = Except.ok (some (Json.str d))) :
    applyRecord st parsed =
      Except.ok { answer := st.answer, citations := st.citations, error := d } := by
  simp [applyRecord, hty, hd, jsStrictEqStr, jsToString, jsValToString]

theorem error_event_keeps_partial_answer_witness :
    applyRecord staleState (Json.obj [("type", Json.str "error"), ("data", Json.str "boom")]) =
      Except.ok { answer := staleState.answer, citations := staleState.citations,
                  error := "boom" } :=
  error_event_keeps_partial_answer staleState _ "boom" rfl rfl

/-- C10.  A successfully parsed object record whose type field is none of the
strings chunk, citations or error falls through every branch of the dispatch:
answer, citations and error are all left unchanged and no exception is
raised. -/
theorem unknown_event_type_ignored (st : QueryState) (members : List (String × Json))
    (h1 : jsStrictEqStr (lookupField members "type") "chunk" = false)
    (h2 : jsStrictEqStr (lookupField members "type") "citations" = false)
    (h3 : jsStrictEqStr (lookupField members "type") "error" = false) :
    applyRecord st (Json.obj members) = Except.ok st := by
  simp [applyRecord, jsField, h1, h2, h3]

theorem unknown_event_type_ignored_witness :
    applyRecord staleState (Json.obj [("type", Json.str "done"), ("data", Json.str "x")]) =
      Except.ok staleState :=
  unknown_event_type_ignored staleState _ rfl rfl rfl

end RAGApp
